import Mathlib

/-
Verification development for the mcp-ssh-server execution core.

Commands and shell text are modelled as lists of characters (`List Char`),
which matches Python string semantics (indexing, slicing, substring tests)
without any encoding subtleties.  All definitions are shallow embeddings of
the Python sources in src/src/ssh_command_executor.py and
src/src/mcp_ssh_server_profile.py; each definition's doc comment names the
Python function it embeds.  Physical time is abstracted: the polling loop of
execute_command is driven by a finite list of receive events, and exhaustion
of that list plays the role of the deadline.
-/

namespace SshExec

/-- Single-quote character, used to build the shell snippets the rewriter
produces (echo-pipe prefix, cd prefix, marker framing). -/
def sq : Char := '\''

/-- ASCII whitespace per Python str.strip / regex \s
(space, tab, newline, carriage return, vertical tab, form feed). -/
def isWS (c : Char) : Bool :=
  c = ' ' || c = '\t' || c = '\n' || c = '\r' || c = '\x0b' || c = '\x0c'

/-- Word character per regex \w (ASCII letters, digits, underscore). -/
def isWordChar (c : Char) : Bool :=
  c.isAlphanum || c = '_'

/-- Python str.lstrip(): drop leading whitespace. -/
def pyLstrip (l : List Char) : List Char :=
  l.dropWhile isWS

/-- Python str.rstrip(): drop trailing whitespace. -/
def pyRstrip (l : List Char) : List Char :=
  (l.reverse.dropWhile isWS).reverse

/-- Python str.strip(): drop leading and trailing whitespace. -/
def pyStrip (l : List Char) : List Char :=
  pyRstrip (pyLstrip l)

/-- Python s.split('\n'): split a string into its lines. -/
def splitLines : List Char → List (List Char)
  | [] => [[]]
  | c :: cs =>
    if c = '\n' then [] :: splitLines cs
    else (c :: (splitLines cs).headD []) :: (splitLines cs).tail

/-- Python '\n'.join(lines). -/
def joinLines : List (List Char) → List Char
  | [] => []
  | [l] => l
  | l :: ls => l ++ '\n' :: joinLines ls

/-- Python s.endswith('\n'). -/
def endsNL (s : List Char) : Bool :=
  s.getLast? = some '\n'

/-- Python a.startswith(b), on char lists: b is an initial segment of the
second argument. -/
def isPrefixB : List Char → List Char → Bool
  | [], _ => true
  | _ :: _, [] => false
  | a :: as, b :: bs => a = b && isPrefixB as bs

/-- Python `b in a`: the first argument occurs as a contiguous substring of
the second. -/
def isInfixB (n : List Char) : List Char → Bool
  | [] => isPrefixB n []
  | h :: t => isPrefixB n (h :: t) || isInfixB n t

/-- Python int(s) on the ASCII decimal fragment: surrounding whitespace is
tolerated, an optional single sign is followed by one or more digits. -/
def digitsToNat : List Char → Option Nat
  | [] => none
  | ds =>
    if ds.all Char.isDigit then
      some (ds.foldl (fun n c => n * 10 + (c.toNat - '0'.toNat)) 0)
    else none

/-- Python int(s): parse an optionally signed decimal integer, rejecting
anything else. -/
def pyParseInt (s : List Char) : Option Int :=
  match pyStrip s with
  | '+' :: ds => (digitsToNat ds).map Int.ofNat
  | '-' :: ds => (digitsToNat ds).map (fun n => -(n : Int))
  | ds => (digitsToNat ds).map Int.ofNat

/-- Python line.split(':', 1)[1]: everything after the first colon
(empty when there is no colon). -/
def afterFirstColon : List Char → List Char
  | [] => []
  | ':' :: t => t
  | _ :: t => afterFirstColon t

/- ### Sudo Rewriter (ssh_command_executor.py, detect_sudo_command and
fix_sudo_command, lines 96-147)

The detection patterns are the regexes r'\bsudo\s+(?!-[nS]\b)' and
r'\bsu\s+(?!-c\b)'.  The embedding scans every position of the string, as
re.search does; at a candidate position the word must sit at a word
boundary, be followed by at least one whitespace character, and the
negative lookahead must admit some (backtracking) split of the whitespace
run: when the run has length at least two the lookahead always admits the
split that keeps one whitespace character in front of the remainder. -/

/-- Negative lookahead (?!-X\b) for a flag set X: true when the remainder
does not start with a dash, a flag letter, and a word boundary. -/
def lookNonFlag (flags : List Char) : List Char → Bool
  | '-' :: c :: rest =>
    if c ∈ flags then
      match rest with
      | [] => false
      | d :: _ => isWordChar d
    else true
  | _ => true

/-- One candidate position of the detection regex: the escalation word, one
or more whitespace characters, and a lookahead-compatible remainder. -/
def matchEscAt (word flags l : List Char) : Bool :=
  if isPrefixB word l then
    let r := l.drop word.length
    let m := (r.takeWhile isWS).length
    decide (1 ≤ m) && (decide (2 ≤ m) || lookNonFlag flags (r.dropWhile isWS))
  else false

/-- Scan every position of the command for the detection regex; the Bool
argument tracks whether the current position sits at a word boundary. -/
def detectScan (word flags : List Char) : Bool → List Char → Bool
  | _, [] => false
  | bnd, c :: cs =>
    (bnd && matchEscAt word flags (c :: cs)) || detectScan word flags (!isWordChar c) cs

/-- detect_sudo_command: true when either privilege-escalation pattern
matches somewhere in the command. -/
def detectSudo (cmd : List Char) : Bool :=
  detectScan "sudo".toList ['n', 'S'] true cmd ||
    detectScan "su".toList ['c'] true cmd

/-- True when the remainder starts with a whitespace character. -/
def headIsWS : List Char → Bool
  | [] => false
  | d :: _ => isWS d

/-- re.sub(r'\bsudo\s+', repl, cmd): replace every word-boundary
occurrence of sudo followed by a whitespace run.  The fuel argument is the
length of the remaining text; each step consumes at least one character, so
the fuel never runs out before the text does (it only makes the recursion
structural). -/
def subSudoGo (repl : List Char) : Nat → Bool → List Char → List Char
  | 0, _, rest => rest
  | _ + 1, _, [] => []
  | n + 1, bnd, c :: cs =>
    if bnd && isPrefixB "sudo".toList (c :: cs) && headIsWS ((c :: cs).drop 4) then
      repl ++ subSudoGo repl n true (((c :: cs).drop 4).dropWhile isWS)
    else c :: subSudoGo repl n (!isWordChar c) cs

/-- re.sub(r'\bsudo\s+', repl, cmd). -/
def subSudo (repl cmd : List Char) : List Char :=
  subSudoGo repl cmd.length true cmd

/-- Refinement of the specification's words only (not of the code): replace
just the first word-boundary occurrence of sudo plus whitespace, leaving
the rest of the command untouched. -/
def specSubSudoFirst (repl : List Char) : Bool → List Char → List Char
  | _, [] => []
  | bnd, c :: cs =>
    if bnd && isPrefixB "sudo".toList (c :: cs) && headIsWS ((c :: cs).drop 4) then
      repl ++ ((c :: cs).drop 4).dropWhile isWS
    else c :: specSubSudoFirst repl (!isWordChar c) cs

/-- Session-level configuration of SSHCommandExecutor that matters to the
rewriter and the engine: auto_sudo_fix, the session sudo password (already
the result of `sudo_password or password` from __init__) and
default_command_timeout. -/
structure ExecCfg where
  autoSudoFix : Bool
  sudoPassword : Option (List Char)
  defaultTimeout : ℚ
deriving DecidableEq

/-- Python `a or b` on optional strings: None and the empty string are
falsy. -/
def pyOrStr (a b : Option (List Char)) : Option (List Char) :=
  match a with
  | some s => if s.isEmpty then b else some s
  | none => b

/-- Python truthiness of an optional string. -/
def pyTruthy : Option (List Char) → Bool
  | some s => !s.isEmpty
  | none => false

/-- The echo-pipe prefix the password branch prepends:
"echo '<password>' | ". -/
def echoPipe (pw : List Char) : List Char :=
  "echo ".toList ++ [sq] ++ pw ++ [sq] ++ " | ".toList

/-- fix_sudo_command (lines 117-147): gate on auto_sudo_fix and detection,
then the password branch (sudo -S plus echo pipe) or the no-password branch
(sudo -n), each guarded by raw substring tests. -/
def fixSudoCommand (cfg : ExecCfg) (callPw : Option (List Char))
    (cmd : List Char) : List Char × Bool :=
  if !cfg.autoSudoFix || !detectSudo cmd then (cmd, false)
  else
    let password := pyOrStr callPw cfg.sudoPassword
    if pyTruthy password && isInfixB "sudo ".toList cmd && !isInfixB "-S".toList cmd then
      (echoPipe (password.getD []) ++ subSudo "sudo -S ".toList cmd, true)
    else if isInfixB "sudo ".toList cmd && !isInfixB "-n".toList cmd &&
        !isInfixB "-S".toList cmd then
      (subSudo "sudo -n ".toList cmd, true)
    else (cmd, false)

/-- The sudo stage of execute_command (lines 378-385): when detection fires
and the fix reports a rewrite, the rewritten command replaces the original. -/
def sudoCmdStage (cfg : ExecCfg) (callPw : Option (List Char))
    (cmd : List Char) : List Char :=
  if detectSudo cmd then
    if (fixSudoCommand cfg callPw cmd).2 then (fixSudoCommand cfg callPw cmd).1 else cmd
  else cmd

/-- The auto_fixed flag computed by the sudo stage of execute_command. -/
def sudoCmdFixed (cfg : ExecCfg) (callPw : Option (List Char))
    (cmd : List Char) : Bool :=
  detectSudo cmd && (fixSudoCommand cfg callPw cmd).2

/-- The effective timeout after the sudo stage of execute_command
(line 385): rewritten sudo calls are clamped to 30 seconds. -/
def effTimeout (cfg : ExecCfg) (callPw : Option (List Char))
    (cmd : List Char) (t : ℚ) : ℚ :=
  if detectSudo cmd && (fixSudoCommand cfg callPw cmd).2 then min t 30 else t

/- ### Heredoc Analyzer/Fixer (mcp_ssh_server_profile.py, HeredocDetector)

The marker patterns are r'<<\s*(["\x27]?)(\w+)\1' and its <<- variant.
After the literal << (and dash), optional whitespace is skipped, an optional
quote is remembered, one or more word characters form the token, and a
remembered quote must be closed.  The regex engine's backtracking adds
nothing here: when a quote is present but unclosed, the fallback
alternative starts at a quote character, which is not a word character, so
it fails too. -/

/-- Parse quote? word+ quote? after the << of a heredoc pattern; returns
the token and the rest of the text after the match. -/
def parseMarkerBody (r : List Char) : Option (List Char × List Char) :=
  match r.dropWhile isWS with
  | '"' :: r2 =>
    let w := r2.takeWhile isWordChar
    if w.isEmpty then none
    else match r2.drop w.length with
      | '"' :: rest => some (w, rest)
      | _ => none
  | '\'' :: r2 =>
    let w := r2.takeWhile isWordChar
    if w.isEmpty then none
    else match r2.drop w.length with
      | c :: rest => if c = sq then some (w, rest) else none
      | _ => none
  | r1 =>
    let w := r1.takeWhile isWordChar
    if w.isEmpty then none else some (w, r1.drop w.length)

/-- One candidate position of a heredoc pattern: the literal <<, a dash for
the indented form, then the marker body. -/
def hdMatchAt (dash : Bool) : List Char → Option (List Char × List Char)
  | '<' :: '<' :: r =>
    if dash then
      match r with
      | '-' :: r2 => parseMarkerBody r2
      | _ => none
    else parseMarkerBody r
  | _ => none

/-- re.finditer for one heredoc pattern: scan left to right, emit each
token, continue after the end of a match.  The fuel argument is the length
of the remaining text; each step consumes at least one character, so the
fuel never runs out before the text does. -/
def hdScan (dash : Bool) : Nat → List Char → List (List Char)
  | 0, _ => []
  | _ + 1, [] => []
  | n + 1, c :: cs =>
    match hdMatchAt dash (c :: cs) with
    | some (tok, rest) => tok :: hdScan dash n rest
    | none => hdScan dash n cs

/-- The tokens of all heredoc matches, first pattern's matches first, as
_detect_heredoc_issues iterates the two patterns. -/
def markersOf (cmd : List Char) : List (List Char) :=
  hdScan false cmd.length cmd ++ hdScan true cmd.length cmd

/-- _check_heredoc_newline inner loop: find the first line whose stripped
content equals the token; if it is not the last line the check passes,
otherwise it passes only when the command ends with a newline; with no such
line the check passes. -/
def checkNewlineLines (tok : List Char) (endsnl : Bool) : List (List Char) → Bool
  | [] => true
  | [l] => if pyStrip l = tok then endsnl else true
  | l :: ls => if pyStrip l = tok then true else checkNewlineLines tok endsnl ls

/-- _check_heredoc_newline (lines 259-268). -/
def checkNewline (cmd tok : List Char) : Bool :=
  checkNewlineLines tok (endsNL cmd) (splitLines cmd)

/-- The indented-terminator predicate of _check_marker_indentation_detailed
and _apply_automatic_fixes: the line strips to the token and carries
leading whitespace. -/
def isIndentedTerm (tok l : List Char) : Bool :=
  pyStrip l = tok && decide (l ≠ pyLstrip l)

/-- First line that strips to the token and is indented, as both the
indentation check and the indentation fix search for it. -/
def findIndented (tok : List Char) : List (List Char) → Option (List Char)
  | [] => none
  | l :: ls => if isIndentedTerm tok l then some l else findIndented tok ls

/-- _apply_automatic_fixes indentation branch: replace the first indented
terminator line by the bare token and keep everything else. -/
def setFirstIndented (tok : List Char) : List (List Char) → List (List Char)
  | [] => []
  | l :: ls => if isIndentedTerm tok l then tok :: ls else l :: setFirstIndented tok ls

/-- Number of leading whitespace characters of a line. -/
def leadWSCount (l : List Char) : Nat :=
  (l.takeWhile isWS).length

/-- re.search(r'\bsudo\b', cmd) of _detect_general_issues. -/
def sudoWordScan : Bool → List Char → Bool
  | _, [] => false
  | bnd, c :: cs =>
    (bnd && isPrefixB "sudo".toList (c :: cs) &&
      (match (c :: cs).drop 4 with
       | [] => true
       | d :: _ => !isWordChar d)) || sudoWordScan (!isWordChar c) cs

/-- Word-boundary occurrence of sudo anywhere in the command. -/
def sudoWordB (cmd : List Char) : Bool :=
  sudoWordScan true cmd

/-- The issue kinds HeredocDetector produces. -/
inductive IssueType
  | missing_newline
  | indented_marker
  | multiple_heredocs
  | sudo_heredoc_combination
deriving DecidableEq

/-- FixAction of mcp_ssh_server_profile.py. -/
inductive FixAction
  | auto_applied
  | suggestion_only
  | manual_required
  | no_fix_needed
deriving DecidableEq

/-- One entry of result["issues"]; marker is empty for the two general
issues (Python uses no marker key there), simpleFix mirrors
indentation_details["simple_fix"]. -/
structure Issue where
  itype : IssueType
  marker : List Char
  autoFixable : Bool
  action : FixAction
  simpleFix : Bool
deriving DecidableEq

/-- One entry of result["fixes_applied"]. -/
structure FixRec where
  ftype : IssueType
  marker : List Char
deriving DecidableEq

/-- _detect_marker_issues for one token, with the default auto-fix
settings (missing_newline and simple_indentation enabled): a missing
newline issue is auto-applied; an indented terminator is auto-applied
exactly when its leading run is at most eight whitespace characters. -/
def markerIssues (cmd tok : List Char) : List Issue :=
  (if checkNewline cmd tok then []
   else [⟨.missing_newline, tok, true, .auto_applied, false⟩]) ++
  (match findIndented tok (splitLines cmd) with
   | some l =>
     let simple := decide (leadWSCount l ≤ 8)
     [⟨.indented_marker, tok, simple,
       if simple then .auto_applied else .suggestion_only, simple⟩]
   | none => [])

/-- _detect_general_issues: a manual-required issue for multiple heredocs
and an informational issue for sudo co-occurrence. -/
def generalIssues (cmd : List Char) (markers : List (List Char)) : List Issue :=
  (if 1 < markers.length then [⟨.multiple_heredocs, [], false, .manual_required, false⟩]
   else []) ++
  (if sudoWordB cmd then [⟨.sudo_heredoc_combination, [], false, .no_fix_needed, false⟩]
   else [])

/-- result["issues"] in the order _detect_heredoc_issues produces them:
per-marker issues in marker order, then general issues when a heredoc was
detected at all. -/
def issuesOf (cmd : List Char) : List Issue :=
  let ms := markersOf cmd
  (ms.map (markerIssues cmd)).flatten ++
    (if ms.isEmpty then [] else generalIssues cmd ms)

/-- One step of _apply_automatic_fixes (lines 197-242): auto-applied
issues mutate the current fixed command; everything else leaves it
untouched. -/
def applyIssue (st : List Char × List FixRec) (iss : Issue) :
    List Char × List FixRec :=
  if iss.autoFixable && iss.action = FixAction.auto_applied then
    match iss.itype with
    | .missing_newline =>
      if endsNL st.1 then st
      else (st.1 ++ ['\n'], st.2 ++ [⟨.missing_newline, iss.marker⟩])
    | .indented_marker =>
      if iss.simpleFix then
        if (findIndented iss.marker (splitLines st.1)).isSome then
          (joinLines (setFirstIndented iss.marker (splitLines st.1)),
           st.2 ++ [⟨.indented_marker, iss.marker⟩])
        else st
      else st
    | _ => st
  else st

/-- _apply_automatic_fixes over the whole issue list. -/
def applyFixes (cmd : List Char) : List Char × List FixRec :=
  (issuesOf cmd).foldl applyIssue (cmd, [])

/-- detect_and_fix_heredoc_command's fixed_command: the fix pass runs only
when a heredoc was detected and auto-fix is enabled. -/
def hfixWith (auto : Bool) (cmd : List Char) : List Char :=
  if !(markersOf cmd).isEmpty && auto then (applyFixes cmd).1 else cmd

/-- The fixed command with auto-fix enabled (the server default). -/
def hfix (cmd : List Char) : List Char :=
  hfixWith true cmd

/-- result["fixes_applied"] with auto-fix enabled. -/
def hfixes (cmd : List Char) : List FixRec :=
  if (markersOf cmd).isEmpty then [] else (applyFixes cmd).2

/-- Refinement of the specification's words only (not of the code): the
lines strictly between the redirection line of the token (the first line
containing <<TOKEN) and the token's terminator line (the first line whose
stripped content equals the token). -/
def specHeredocBody (cmd tok : List Char) : List (List Char) :=
  let lines := splitLines cmd
  match lines.findIdx? (fun l => isInfixB ('<' :: '<' :: tok) l),
    lines.findIdx? (fun l => pyStrip l = tok) with
  | some r, some t => (lines.drop (r + 1)).take (t - r - 1)
  | _, _ => []

/- ### Marker Protocol Codec and Execution Engine
(ssh_command_executor.py, execute_command, lines 353-530)

Physical time is abstracted: each iteration of the polling loop consumes
one receive event from a finite list, and exhaustion of the list stands
for the deadline (time.time() >= end_time).  Exceptions thrown by the
transport inside the loop are events (the code catches them inside the
loop); an exception from send propagates to the enclosing handler and is
modelled in the Except monad. -/

/-- Command execution status (CommandStatus enum). -/
inductive CommandStatus
  | success
  | timeout
  | error
  | recovered
deriving DecidableEq

/-- CommandResult dataclass (execution_time omitted: wall-clock time is
not modelled). -/
structure CommandResult where
  stdout : List Char
  stderr : List Char
  exitCode : Option Int
  status : CommandStatus
  command : List Char
  originalCommand : Option (List Char)
  autoFixed : Bool
  sessionRecovered : Bool
deriving DecidableEq

/-- Decoder state of the polling loop: the started/ended flags, the parsed
exit code and the collected stdout lines. -/
structure DecSt where
  started : Bool
  ended : Bool
  exitCode : Option Int
  stdoutLines : List (List Char)
deriving DecidableEq

/-- The initial decoder state. -/
def initDecSt : DecSt :=
  ⟨false, false, none, []⟩

/-- The per-line branch chain of the polling loop (lines 446-465): strip
the line; a line containing the start marker flips started, one containing
the end marker flips ended, an EXIT_CODE: line is parsed (keeping the old
value on parse failure) and breaks out of the chunk; any other non-empty
line between the markers is collected.  The Bool result is the break
flag. -/
def procLine (startM endM : List Char) (st : DecSt) (l : List Char) :
    DecSt × Bool :=
  if isInfixB startM (pyStrip l) then ({ st with started := true }, false)
  else if isInfixB endM (pyStrip l) then ({ st with ended := true }, false)
  else if isPrefixB "EXIT_CODE:".toList (pyStrip l) then
    ({ st with exitCode :=
        match pyParseInt (afterFirstColon (pyStrip l)) with
        | some v => some v
        | none => st.exitCode }, true)
  else if st.started && !st.ended && !(pyStrip l).isEmpty then
    ({ st with stdoutLines := st.stdoutLines ++ [pyStrip l] }, false)
  else (st, false)

/-- The for-loop over the lines of one chunk, honouring the break. -/
def procLinesB (startM endM : List Char) : DecSt → List (List Char) → DecSt
  | st, [] => st
  | st, l :: ls =>
    match procLine startM endM st l with
    | (st', true) => st'
    | (st', false) => procLinesB startM endM st' ls

/-- Decode one received chunk: split on newlines and run the line loop. -/
def procChunk (startM endM : List Char) (st : DecSt) (s : List Char) : DecSt :=
  procLinesB startM endM st (splitLines s)

/-- One outcome of shell_channel.recv inside the polling loop. -/
inductive RecvEvent
  | chunk (s : List Char)
  | emptyData
  | sshExc
  | otherExc
deriving DecidableEq

/-- How the polling loop terminated. -/
inductive LoopExit
  | done
  | excBreak
  | deadline
deriving DecidableEq

/-- The polling loop (lines 436-475): a chunk is decoded and the loop ends
once the end marker and an exit code were both seen; an SSHException breaks
the loop; empty data and other exceptions are retried; an exhausted event
list is the deadline. -/
def pollLoop (startM endM : List Char) : DecSt → List RecvEvent → DecSt × LoopExit
  | st, [] => (st, .deadline)
  | st, e :: es =>
    match e with
    | .chunk s =>
      let st' := procChunk startM endM st s
      if st'.ended && st'.exitCode.isSome then (st', .done)
      else pollLoop startM endM st' es
    | .emptyData => pollLoop startM endM st es
    | .sshExc => (st, .excBreak)
    | .otherExc => pollLoop startM endM st es

/-- The environment one call observes: connection flag, marker id
(uuid4().hex with dashes removed), send outcome, the receive events within
the deadline, and the outcomes of the recovery and reconnect machinery. -/
structure Env where
  connected : Bool
  markerId : List Char
  sendOk : Bool
  sendErrMsg : List Char
  events : List RecvEvent
  recoveryOk : Bool
  reconnectOk : Bool
deriving DecidableEq

/-- One execution request (ExecutionRequest). -/
structure Request where
  command : List Char
  timeout : Option ℚ
  workingDirectory : Option (List Char)
  sudoPassword : Option (List Char)
deriving DecidableEq

/-- The start marker for a call. -/
def startMarkerOf (id : List Char) : List Char :=
  "SSH_CMD_MARKER_START_".toList ++ id

/-- The end marker for a call. -/
def endMarkerOf (id : List Char) : List Char :=
  "SSH_CMD_MARKER_END_".toList ++ id

/-- The working-directory prefix (lines 403-405): cd '<dir>' && cmd. -/
def wdPrefix (wd : Option (List Char)) (cmd : List Char) : List Char :=
  match wd with
  | some d => "cd ".toList ++ [sq] ++ d ++ [sq] ++ " && ".toList ++ cmd
  | none => cmd

/-- The framed command (lines 413-419): echo '<START>' && (cmd);
exit_code=$?; echo '<END>'; echo 'EXIT_CODE:'$exit_code. -/
def encodeFull (startM endM cmd : List Char) : List Char :=
  "echo ".toList ++ [sq] ++ startM ++ [sq] ++ " && (".toList ++ cmd ++
    "); exit_code=$?; echo ".toList ++ [sq] ++ endM ++ [sq] ++
    "; echo ".toList ++ [sq] ++ "EXIT_CODE:".toList ++ [sq] ++
    "$exit_code".toList

/-- The full command text a call hands to shell_channel.send: the sudo
stage, the working-directory prefix and the marker framing. -/
def sentFullCommand (cfg : ExecCfg) (env : Env) (req : Request) : List Char :=
  encodeFull (startMarkerOf env.markerId) (endMarkerOf env.markerId)
    (wdPrefix req.workingDirectory (sudoCmdStage cfg req.sudoPassword req.command))

/-- The recovery/stderr tail of the timeout path (lines 486-501). -/
def timeoutStderr (env : Env) : List Char :=
  if env.recoveryOk then "\n[セッション復旧成功]".toList
  else "\n[セッション復旧失敗]".toList ++
    (if env.reconnectOk then "\n[強制再接続成功]".toList
     else "\n[強制再接続失敗: 接続切断]".toList)

/-- Everything inside the try of execute_command, in the Except monad: a
send failure raises; otherwise the polling loop runs and the result is
classified (lines 401-515). -/
def execBody (env : Env) (req : Request) (autoFixed : Bool) :
    Except (List Char) CommandResult :=
  let startM := startMarkerOf env.markerId
  let endM := endMarkerOf env.markerId
  if !env.sendOk then .error env.sendErrMsg
  else
    let r := pollLoop startM endM initDecSt env.events
    let stdoutText := joinLines r.1.stdoutLines
    if !r.1.started then
      .ok ⟨stdoutText, [], r.1.exitCode, .error, req.command,
        if autoFixed then some req.command else none, autoFixed, false⟩
    else if r.2 = LoopExit.deadline then
      if env.recoveryOk then
        .ok ⟨stdoutText, timeoutStderr env, r.1.exitCode, .recovered, req.command,
          if autoFixed then some req.command else none, autoFixed, true⟩
      else
        .ok ⟨stdoutText, timeoutStderr env, r.1.exitCode, .timeout, req.command,
          if autoFixed then some req.command else none, autoFixed, false⟩
    else
      .ok ⟨stdoutText, [], r.1.exitCode, .success, req.command,
        if autoFixed then some req.command else none, autoFixed, false⟩

/-- execute_command in the Except monad: the not-connected early return
(lines 388-399) and the try/except wrapper (lines 517-530) that converts
any escaped exception into an error result. -/
def executeCommandE (cfg : ExecCfg) (env : Env) (req : Request) :
    Except (List Char) CommandResult :=
  let autoFixed := sudoCmdFixed cfg req.sudoPassword req.command
  if !env.connected then
    .ok ⟨[], "SSH接続が確立されていません".toList, none, .error, req.command,
      some req.command, autoFixed, false⟩
  else
    match execBody env req autoFixed with
    | .ok r => .ok r
    | .error e =>
      .ok ⟨[], e, none, .error, req.command,
        if autoFixed then some req.command else none, autoFixed, false⟩

/-- execute_command as its caller sees it: always a plain CommandResult. -/
def executeCommand (cfg : ExecCfg) (env : Env) (req : Request) : CommandResult :=
  match executeCommandE cfg env req with
  | .ok r => r
  | .error e =>
    ⟨[], e, none, .error, req.command, none,
      sudoCmdFixed cfg req.sudoPassword req.command, false⟩

/-- _ssh_execute (mcp_ssh_server_profile.py, lines 1915-1967): the server
runs the heredoc analyzer/fixer on the raw command and passes its
fixed_command to execute_command; this is the text the call frames and
sends. -/
def serverSentCommand (cfg : ExecCfg) (env : Env) (req : Request)
    (heredocAutoFix : Option Bool) : List Char :=
  sentFullCommand cfg env
    { req with command := hfixWith (heredocAutoFix.getD true) req.command }

/-- Refinement of the specification's words only (not of the code): the
pipeline the spec describes, with the Sudo Rewriter applied first and the
Heredoc Fixer second. -/
def specOrderSentCommand (cfg : ExecCfg) (env : Env) (req : Request) : List Char :=
  encodeFull (startMarkerOf env.markerId) (endMarkerOf env.markerId)
    (wdPrefix req.workingDirectory
      (hfix (sudoCmdStage cfg req.sudoPassword req.command)))

/-- Refinement of the specification's words only (not of the code): the
raw lines strictly between the first line containing the start marker and
the first line containing the end marker. -/
def specLinesBetween (startM endM : List Char) (ls : List (List Char)) :
    List (List Char) :=
  ((ls.dropWhile (fun l => !isInfixB startM l)).drop 1).takeWhile
    (fun l => !isInfixB endM l)

/-- Per-line frame relation of the heredoc fixer: an output line is either
the original line verbatim, or, when the original strips to one of the
detected terminator tokens, that stripped token. -/
def lineFixRel (toks : List (List Char)) (lo lc : List Char) : Prop :=
  lc = lo ∨ (pyStrip lo ∈ toks ∧ lc = pyStrip lo)

/-- Frame invariant of the fixer: the lines of the current command are the
original lines (each unchanged or stripped to a detected token) followed by
at most one appended empty line (from the appended final newline). -/
def FrameInv (cmd cur : List Char) : Prop :=
  ∃ core ext, splitLines cur = core ++ ext ∧
    List.Forall₂ (lineFixRel (markersOf cmd)) (splitLines cmd) core ∧
    (ext = [] ∨ ext = [[]])

/-- A protocol-neutral line: after stripping it contains neither marker
and does not start with EXIT_CODE:.  The decoder leaves its state
unchanged on such a line outside the marker window and collects it inside
the window. -/
def cleanLine (startM endM l : List Char) : Bool :=
  !isInfixB startM (pyStrip l) && !isInfixB endM (pyStrip l) &&
    !isPrefixB "EXIT_CODE:".toList (pyStrip l)

/- ### Elementary lemmas about the string utilities -/

theorem splitLines_ne_nil (s : List Char) : splitLines s ≠ [] := by
  cases s with
  | nil => simp [splitLines]
  | cons c cs =>
    simp only [splitLines]
    split <;> simp

theorem splitLines_shape (s : List Char) : ∃ h t, splitLines s = h :: t := by
  cases hq : splitLines s with
  | nil => exact absurd hq (splitLines_ne_nil s)
  | cons h t => exact ⟨h, t, rfl⟩

theorem splitLines_cons_nl (cs : List Char) :
    splitLines ('\n' :: cs) = [] :: splitLines cs := by
  simp [splitLines]

theorem splitLines_cons_of {c : Char} {cs : List Char} {h : List Char}
    {t : List (List Char)} (hc : c ≠ '\n') (hr : splitLines cs = h :: t) :
    splitLines (c :: cs) = (c :: h) :: t := by
  simp [splitLines, hc, hr]

theorem joinLines_splitLines (s : List Char) : joinLines (splitLines s) = s := by
  induction s with
  | nil => rfl
  | cons c cs ih =>
    obtain ⟨h, t, hr⟩ := splitLines_shape cs
    rw [hr] at ih
    by_cases hc : c = '\n'
    · subst hc
      rw [splitLines_cons_nl, hr]
      simpa [joinLines] using ih
    · rw [splitLines_cons_of hc hr]
      cases t with
      | nil => simpa [joinLines] using congrArg (c :: ·) ih
      | cons t0 ts =>
        simp only [joinLines] at ih ⊢
        rw [List.cons_append, ih]

theorem splitLines_append_newline (s : List Char) :
    splitLines (s ++ ['\n']) = splitLines s ++ [[]] := by
  induction s with
  | nil => rfl
  | cons c cs ih =>
    obtain ⟨h, t, hr⟩ := splitLines_shape cs
    rw [hr] at ih
    by_cases hc : c = '\n'
    · subst hc
      rw [List.cons_append, splitLines_cons_nl, splitLines_cons_nl, ih, hr]
      simp
    · rw [List.cons_append, splitLines_cons_of hc ih, splitLines_cons_of hc hr]
      simp

theorem not_mem_splitLines (s : List Char) :
    ∀ l ∈ splitLines s, '\n' ∉ l := by
  induction s with
  | nil => intro l hl; simp [splitLines] at hl; simp [hl]
  | cons c cs ih =>
    intro l hl
    obtain ⟨h, t, hr⟩ := splitLines_shape cs
    by_cases hc : c = '\n'
    · subst hc
      rw [splitLines_cons_nl] at hl
      rcases List.mem_cons.mp hl with hl | hl
      · simp [hl]
      · exact ih l hl
    · rw [splitLines_cons_of hc hr] at hl
      rcases List.mem_cons.mp hl with hl | hl
      · subst hl
        intro hmem
        rcases List.mem_cons.mp hmem with h1 | h1
        · exact hc h1.symm
        · exact ih h (hr ▸ List.mem_cons_self h t) h1
      · exact ih l (hr ▸ List.mem_cons_of_mem h hl)

theorem splitLines_no_newline {l : List Char} (h : '\n' ∉ l) :
    splitLines l = [l] := by
  induction l with
  | nil => rfl
  | cons c cs ih =>
    have hc : c ≠ '\n' := fun hc => h (hc ▸ List.mem_cons_self c cs)
    have hcs : '\n' ∉ cs := fun hm => h (List.mem_cons_of_mem c hm)
    exact splitLines_cons_of hc (ih hcs)

theorem splitLines_append_cons {l : List Char} (rest : List Char) (h : '\n' ∉ l) :
    splitLines (l ++ '\n' :: rest) = l :: splitLines rest := by
  induction l with
  | nil => simpa using splitLines_cons_nl rest
  | cons c cs ih =>
    have hc : c ≠ '\n' := fun hc => h (hc ▸ List.mem_cons_self c cs)
    have hcs : '\n' ∉ cs := fun hm => h (List.mem_cons_of_mem c hm)
    rw [List.cons_append, splitLines_cons_of hc (ih hcs)]

theorem splitLines_joinLines {ls : List (List Char)}
    (hnl : ∀ l ∈ ls, '\n' ∉ l) (hne : ls ≠ []) :
    splitLines (joinLines ls) = ls := by
  induction ls with
  | nil => exact absurd rfl hne
  | cons l ls ih =>
    cases ls with
    | nil =>
      simp only [joinLines]
      exact splitLines_no_newline (hnl l (List.mem_cons_self l []))
    | cons l2 ls2 =>
      simp only [joinLines]
      rw [splitLines_append_cons _ (hnl l (List.mem_cons_self l _))]
      rw [ih (fun x hx => hnl x (List.mem_cons_of_mem l hx)) (by simp)]

theorem endsNL_append_newline (s : List Char) : endsNL (s ++ ['\n']) = true := by
  simp [endsNL, List.getLast?_concat]

theorem joinLines_append_empty {ls : List (List Char)} (h : ls ≠ []) :
    joinLines (ls ++ [[]]) = joinLines ls ++ ['\n'] := by
  induction ls with
  | nil => exact absurd rfl h
  | cons l ls ih =>
    cases ls with
    | nil => simp [joinLines]
    | cons l2 ls2 =>
      have hmid : (l :: l2 :: ls2) ++ [[]] = l :: ((l2 :: ls2) ++ [[]]) := by simp
      rw [hmid]
      have h2 : joinLines (l :: ((l2 :: ls2) ++ [[]])) =
          l ++ '\n' :: joinLines ((l2 :: ls2) ++ [[]]) := by
        simp [joinLines]
      rw [h2, ih (by simp)]
      simp [joinLines]

theorem mem_dropWhile {p : Char → Bool} {a : Char} :
    ∀ {l : List Char}, a ∈ l.dropWhile p → a ∈ l := by
  intro l
  induction l with
  | nil => simp
  | cons c cs ih =>
    intro h
    by_cases hp : p c
    · rw [List.dropWhile_cons_of_pos hp] at h
      exact List.mem_cons_of_mem c (ih h)
    · rwa [List.dropWhile_cons_of_neg hp] at h

theorem mem_pyStrip {a : Char} {l : List Char} (h : a ∈ pyStrip l) : a ∈ l := by
  unfold pyStrip pyRstrip pyLstrip at h
  rw [List.mem_reverse] at h
  have h2 := mem_dropWhile h
  rw [List.mem_reverse] at h2
  exact mem_dropWhile h2

theorem dropWhile_head_false {p : Char → Bool} :
    ∀ {l : List Char} {a : Char} {t : List Char},
      l.dropWhile p = a :: t → p a = false := by
  intro l
  induction l with
  | nil => intro a t h; simp [List.dropWhile] at h
  | cons c cs ih =>
    intro a t h
    by_cases hp : p c
    · rw [List.dropWhile_cons_of_pos hp] at h
      exact ih h
    · rw [List.dropWhile_cons_of_neg hp] at h
      cases h
      simpa using hp

theorem dropWhile_append_last {p : Char → Bool} (a : Char) :
    ∀ w : List Char, (w ++ [a]).dropWhile p = [] ∨
      ∃ u, (w ++ [a]).dropWhile p = u ++ [a] := by
  intro w
  induction w with
  | nil =>
    by_cases hp : p a
    · left; simp [List.dropWhile, hp]
    · right; exact ⟨[], by simp [List.dropWhile, hp]⟩
  | cons c cs ih =>
    by_cases hp : p c
    · simpa [List.dropWhile_cons_of_pos hp] using ih
    · right
      exact ⟨c :: cs, by simp [List.dropWhile_cons_of_neg hp]⟩

theorem pyRstrip_head (a : Char) (t : List Char) :
    pyRstrip (a :: t) = [] ∨ ∃ u, pyRstrip (a :: t) = a :: u := by
  unfold pyRstrip
  rcases dropWhile_append_last (p := isWS) a t.reverse with h | ⟨u, h⟩
  · left; simp [List.reverse_cons, h]
  · right
    exact ⟨u.reverse, by simp [List.reverse_cons, h]⟩

theorem pyLstrip_pyStrip (l : List Char) : pyLstrip (pyStrip l) = pyStrip l := by
  unfold pyStrip
  cases hx : pyLstrip l with
  | nil => simp [pyRstrip, pyLstrip]
  | cons a t =>
    have ha : isWS a = false := dropWhile_head_false (p := isWS) hx
    rcases pyRstrip_head a t with h | ⟨u, h⟩
    · simp [h, pyLstrip]
    · rw [h]
      have hna : ¬ (isWS a = true) := by simp [ha]
      simp [pyLstrip, List.dropWhile_cons_of_neg hna]

theorem isPrefixB_append_drop {y : List Char} :
    ∀ {x l : List Char}, isPrefixB (x ++ y) l = true → isInfixB y l = true := by
  intro x
  induction x with
  | nil =>
    intro l h
    cases l with
    | nil => simpa [isInfixB] using h
    | cons c cs => simp [isInfixB]; left; simpa using h
  | cons a as ih =>
    intro l h
    cases l with
    | nil => simp [isPrefixB] at h
    | cons c cs =>
      simp only [List.cons_append, isPrefixB, Bool.and_eq_true] at h
      have := ih h.2
      cases cs with
      | nil =>
        simp [isInfixB] at this ⊢
        right; exact this
      | cons d ds =>
        simp only [isInfixB] at this ⊢
        simp [this]

theorem isInfixB_of_append {x y l : List Char} (h : isInfixB (x ++ y) l = true) :
    isInfixB y l = true := by
  induction l with
  | nil =>
    cases x with
    | nil => simpa using h
    | cons a as => simp [isInfixB, isPrefixB] at h
  | cons c cs ih =>
    simp only [isInfixB, Bool.or_eq_true] at h ⊢
    rcases h with h | h
    · have := isPrefixB_append_drop (x := x) (y := y) h
      cases cs with
      | nil => simpa [isInfixB] using this
      | cons d ds => simpa [isInfixB] using this
    · right; exact ih h

/- ### Claims C2, C3, C8: the Sudo Rewriter -/

theorem fixSudo_id_of_dashS {cfg : ExecCfg} {callPw : Option (List Char)}
    {C : List Char} (hS : isInfixB "-S".toList C = true) :
    fixSudoCommand cfg callPw C = (C, false) := by
  simp only [String.toList] at hS
  unfold fixSudoCommand
  split
  · rfl
  · simp [hS]

theorem fixSudo_id_of_dashn {cfg : ExecCfg} {callPw : Option (List Char)}
    {C : List Char} (hn : isInfixB "-n".toList C = true)
    (hpw : pyTruthy (pyOrStr callPw cfg.sudoPassword) = false) :
    fixSudoCommand cfg callPw C = (C, false) := by
  simp only [String.toList] at hn
  unfold fixSudoCommand
  split
  · rfl
  · simp [hn, hpw]

/-- Claim C2 (corrected): the claim says the password branch rewrites only
the first bare sudo occurrence; the code's re.sub rewrites every
word-boundary occurrence of sudo plus whitespace.  The claim is refuted on
a command with two sudo invocations; it also silently assumed the guards
of the branch: the command must contain the literal substring consisting
of sudo and a space, and must not contain the two characters dash-S
anywhere (otherwise the function returns the command unchanged with flag
false, even though detection fired). -/
theorem c2_sudo_password_amended (cfg : ExecCfg) (callPw : Option (List Char))
    (cmd pw : List Char)
    (hauto : cfg.autoSudoFix = true)
    (hdet : detectSudo cmd = true)
    (hpw : pyOrStr callPw cfg.sudoPassword = some pw)
    (hne : pw.isEmpty = false)
    (hsudo : isInfixB "sudo ".toList cmd = true)
    (hS : isInfixB "-S".toList cmd = false) :
    fixSudoCommand cfg callPw cmd =
      (echoPipe pw ++ subSudo "sudo -S ".toList cmd, true) := by
  simp only [String.toList] at hsudo hS
  simp [fixSudoCommand, hauto, hdet, hpw, hne, hsudo, hS, pyTruthy]

/-- Witness for C2's amended theorem at the configured password "pw" and
the two-sudo command. -/
theorem c2_sudo_password_amended_witness :
    fixSudoCommand ⟨true, some "pw".toList, 300⟩ none "sudo ls && sudo cat".toList =
      (echoPipe "pw".toList ++ subSudo "sudo -S ".toList "sudo ls && sudo cat".toList,
        true) :=
  c2_sudo_password_amended ⟨true, some "pw".toList, 300⟩ none
    "sudo ls && sudo cat".toList "pw".toList rfl (by decide) rfl (by decide)
    (by decide) (by decide)

/-- Counterexample for claim C2 as stated: (a) with a password, both sudo
occurrences of a two-sudo command are rewritten, not only the first;
(b) a command detected through the su pattern is returned unchanged with
flag false although a password is available; (c) an unrelated dash-S
substring blocks the rewrite of a detected sudo command. -/
theorem c2_counterexample :
    (fixSudoCommand ⟨true, some "pw".toList, 300⟩ none "sudo ls && sudo cat".toList).1 ≠
      echoPipe "pw".toList ++
        specSubSudoFirst "sudo -S ".toList true "sudo ls && sudo cat".toList ∧
    detectSudo "su root".toList = true ∧
    fixSudoCommand ⟨true, some "pw".toList, 300⟩ none "su root".toList =
      ("su root".toList, false) ∧
    detectSudo "sudo ls -Sr".toList = true ∧
    fixSudoCommand ⟨true, some "pw".toList, 300⟩ none "sudo ls -Sr".toList =
      ("sudo ls -Sr".toList, false) := by
  decide

/-- Claim C3 (corrected): with no password the rewriter produces the
sudo -n form and execute_command clamps the timeout, but only under the
branch's guards, which the claim omitted: the command must contain the
literal substring consisting of sudo and a space and contain neither
dash-n nor dash-S; a command detected only through the su pattern, or one
already carrying a dash-n anywhere, is returned unchanged with flag
false. -/
theorem c3_sudo_nopassword_amended (cfg : ExecCfg) (callPw : Option (List Char))
    (cmd : List Char)
    (hauto : cfg.autoSudoFix = true)
    (hdet : detectSudo cmd = true)
    (hpw : pyTruthy (pyOrStr callPw cfg.sudoPassword) = false)
    (hsudo : isInfixB "sudo ".toList cmd = true)
    (hn : isInfixB "-n".toList cmd = false)
    (hS : isInfixB "-S".toList cmd = false) :
    fixSudoCommand cfg callPw cmd = (subSudo "sudo -n ".toList cmd, true) ∧
    ∀ t : ℚ, effTimeout cfg callPw cmd t = min t 30 ∧
      effTimeout cfg callPw cmd t ≤ 30 := by
  have hfixr : fixSudoCommand cfg callPw cmd = (subSudo "sudo -n ".toList cmd, true) := by
    simp only [String.toList] at hsudo hn hS
    simp [fixSudoCommand, hauto, hdet, hpw, hsudo, hn, hS]
  refine ⟨hfixr, fun t => ?_⟩
  have heff : effTimeout cfg callPw cmd t = min t 30 := by
    simp [effTimeout, hdet, hfixr]
  exact ⟨heff, heff ▸ min_le_right t 30⟩

/-- Witness for C3's amended theorem on the specification's scenario
command, checking the rewrite and the clamp at a requested 300 seconds. -/
theorem c3_sudo_nopassword_amended_witness :
    fixSudoCommand ⟨true, none, 300⟩ none "sudo cat /etc/shadow".toList =
      (subSudo "sudo -n ".toList "sudo cat /etc/shadow".toList, true) ∧
    effTimeout ⟨true, none, 300⟩ none "sudo cat /etc/shadow".toList 300 ≤ 30 := by
  have T := c3_sudo_nopassword_amended ⟨true, none, 300⟩ none
    "sudo cat /etc/shadow".toList rfl (by decide) rfl (by decide) (by decide)
    (by decide)
  exact ⟨T.1, (T.2 300).2⟩

/-- Counterexample for claim C3 as stated: (a) the command su root is
detected as privilege escalation but, with no password, is returned
unchanged with flag false instead of being rewritten to the sudo -n form;
(b) a detected sudo command with a two-space gap before -n is likewise
returned unchanged because of the dash-n substring guard. -/
theorem c3_counterexample :
    detectSudo "su root".toList = true ∧
    fixSudoCommand ⟨true, none, 300⟩ none "su root".toList =
      ("su root".toList, false) ∧
    detectSudo "sudo  -n ls".toList = true ∧
    fixSudoCommand ⟨true, none, 300⟩ none "sudo  -n ls".toList =
      ("sudo  -n ls".toList, false) := by
  decide

/-- Claim C8 (corrected): the rewriter is idempotent on a command that
already contains the sudo -S form, and on one containing the sudo -n form
when no password is available; with a password configured, a command whose
dash-n occurrence blocks neither guard can be wrapped again on every
application. -/
theorem c8_idempotent_amended (cfg : ExecCfg) (callPw : Option (List Char))
    (C : List Char)
    (h : isInfixB "sudo -S".toList C = true ∨
      (isInfixB "sudo -n".toList C = true ∧
        pyTruthy (pyOrStr callPw cfg.sudoPassword) = false)) :
    (fixSudoCommand cfg callPw (fixSudoCommand cfg callPw C).1).1 =
      (fixSudoCommand cfg callPw C).1 := by
  have hid : fixSudoCommand cfg callPw C = (C, false) := by
    rcases h with h | ⟨hn, hpw⟩
    · have hsplit : ("sudo -S".toList : List Char) = "sudo ".toList ++ "-S".toList := by
        decide
    -- a command containing sudo -S contains -S, so both guards block
      exact fixSudo_id_of_dashS (isInfixB_of_append (hsplit ▸ h))
    · have hsplit : ("sudo -n".toList : List Char) = "sudo ".toList ++ "-n".toList := by
        decide
      exact fixSudo_id_of_dashn (isInfixB_of_append (hsplit ▸ hn)) hpw
  have h1 : (fixSudoCommand cfg callPw C).1 = C := by rw [hid]
  rw [h1, h1]

/-- Witness for C8's amended theorem on a command already in the sudo -S
form. -/
theorem c8_idempotent_amended_witness :
    (fixSudoCommand ⟨true, none, 300⟩ none
        (fixSudoCommand ⟨true, none, 300⟩ none "sudo -S ls".toList).1).1 =
      (fixSudoCommand ⟨true, none, 300⟩ none "sudo -S ls".toList).1 :=
  c8_idempotent_amended ⟨true, none, 300⟩ none "sudo -S ls".toList
    (Or.inl (by decide))

/-- Counterexample for claim C8 as stated: with a configured password, the
command asudo -n ls; su root contains the substring sudo -n, is detected
through its su invocation, gains an echo-pipe prefix on the first
application and a second copy of that prefix on the second application, so
fix(fix(C)) differs from fix(C). -/
theorem c8_counterexample :
    isInfixB "sudo -n".toList "asudo -n ls; su root".toList = true ∧
    (fixSudoCommand ⟨true, some "pw".toList, 300⟩ none
        (fixSudoCommand ⟨true, some "pw".toList, 300⟩ none
          "asudo -n ls; su root".toList).1).1 ≠
      (fixSudoCommand ⟨true, some "pw".toList, 300⟩ none
        "asudo -n ls; su root".toList).1 := by
  decide

/- ### Claims C4 and C10: the Heredoc Fixer on single-heredoc commands -/

theorem checkNewlineLines_false {tok : List Char} {e : Bool} :
    ∀ {ls : List (List Char)}, checkNewlineLines tok e ls = false → e = false := by
  intro ls
  induction ls with
  | nil => intro h; simp [checkNewlineLines] at h
  | cons l ls ih =>
    intro h
    cases ls with
    | nil =>
      simp only [checkNewlineLines] at h
      split at h
      · exact h
      · exact absurd h (by simp)
    | cons l2 ls2 =>
      simp only [checkNewlineLines] at h
      split at h
      · exact absurd h (by simp)
      · exact ih h

theorem checkNewlineLines_true_of_no_term {tok : List Char} {e : Bool} :
    ∀ {ls : List (List Char)}, (∀ l ∈ ls, pyStrip l ≠ tok) →
      checkNewlineLines tok e ls = true := by
  intro ls
  induction ls with
  | nil => intro _; rfl
  | cons l ls ih =>
    intro hno
    cases ls with
    | nil =>
      have := hno l (List.mem_cons_self l [])
      simp [checkNewlineLines, this]
    | cons l2 ls2 =>
      have h1 := hno l (List.mem_cons_self l _)
      simp only [checkNewlineLines]
      rw [if_neg h1]
      exact ih (fun x hx => hno x (List.mem_cons_of_mem l hx))

theorem findIndented_none_of_no_term {tok : List Char} :
    ∀ {ls : List (List Char)}, (∀ l ∈ ls, pyStrip l ≠ tok) →
      findIndented tok ls = none := by
  intro ls
  induction ls with
  | nil => intro _; rfl
  | cons l ls ih =>
    intro hno
    have h1 : isIndentedTerm tok l = false := by
      simp [isIndentedTerm, hno l (List.mem_cons_self l ls)]
    simp only [findIndented, h1, Bool.false_eq_true, if_false]
    exact ih (fun x hx => hno x (List.mem_cons_of_mem l hx))

/-- Claim C4 (confirmed): on a command with exactly one heredoc match
whose newline check fails and whose indentation check finds nothing, the
fixer returns exactly the input with one newline appended and records
exactly one missing_newline fix. -/
theorem c4_missing_newline_roundtrip (cmd m : List Char)
    (h1 : markersOf cmd = [m])
    (h2 : checkNewline cmd m = false)
    (h3 : findIndented m (splitLines cmd) = none) :
    hfix cmd = cmd ++ ['\n'] ∧
    hfixes cmd = [⟨IssueType.missing_newline, m⟩] := by
  have hends : endsNL cmd = false :=
    checkNewlineLines_false (by simpa [checkNewline] using h2)
  have hiss : issuesOf cmd =
      ⟨IssueType.missing_newline, m, true, FixAction.auto_applied, false⟩ ::
        (if sudoWordB cmd then
          [⟨IssueType.sudo_heredoc_combination, [], false, FixAction.no_fix_needed, false⟩]
         else []) := by
    simp [issuesOf, h1, markerIssues, h2, h3, generalIssues]
  have happ : applyFixes cmd = (cmd ++ ['\n'], [⟨IssueType.missing_newline, m⟩]) := by
    unfold applyFixes
    rw [hiss]
    by_cases hs : sudoWordB cmd = true
    · simp [hs, applyIssue, hends]
    · simp [hs, applyIssue, hends]
  constructor
  · simp [hfix, hfixWith, h1, happ]
  · simp [hfixes, h1, happ]

/-- Witness for C4 at the specification's scenario command. -/
theorem c4_missing_newline_roundtrip_witness :
    hfix "cat > /tmp/x << EOF\nhi\nEOF".toList =
      "cat > /tmp/x << EOF\nhi\nEOF".toList ++ ['\n'] ∧
    hfixes "cat > /tmp/x << EOF\nhi\nEOF".toList =
      [⟨IssueType.missing_newline, "EOF".toList⟩] :=
  c4_missing_newline_roundtrip "cat > /tmp/x << EOF\nhi\nEOF".toList
    "EOF".toList (by decide) (by decide) (by decide)

/-- Claim C10 (confirmed): on a single-heredoc command without sudo whose
terminator token never occurs as a standalone (stripped) line, the
analyzer reports no issue at all and the fixer returns the command
unchanged. -/
theorem c10_absent_terminator (cmd tok : List Char)
    (h1 : markersOf cmd = [tok])
    (h2 : sudoWordB cmd = false)
    (h3 : ∀ l ∈ splitLines cmd, pyStrip l ≠ tok) :
    issuesOf cmd = [] ∧ hfix cmd = cmd ∧ hfixes cmd = [] := by
  have hnl : checkNewline cmd tok = true := by
    unfold checkNewline
    exact checkNewlineLines_true_of_no_term h3
  have hfi : findIndented tok (splitLines cmd) = none :=
    findIndented_none_of_no_term h3
  have hiss : issuesOf cmd = [] := by
    simp [issuesOf, h1, markerIssues, hnl, hfi, generalIssues, h2]
  refine ⟨hiss, ?_, ?_⟩
  · simp [hfix, hfixWith, h1, applyFixes, hiss]
  · simp [hfixes, h1, applyFixes, hiss]

/-- Witness for C10 at a heredoc redirection whose terminator line is
absent. -/
theorem c10_absent_terminator_witness :
    issuesOf "cat << EOF\necho hi".toList = [] ∧
    hfix "cat << EOF\necho hi".toList = "cat << EOF\necho hi".toList ∧
    hfixes "cat << EOF\necho hi".toList = [] :=
  c10_absent_terminator "cat << EOF\necho hi".toList "EOF".toList
    (by decide) (by decide) (by decide)

/- ### Claim C1: the output decoder -/

theorem cleanLine_parts {S E l : List Char} (hcl : cleanLine S E l = true) :
    isInfixB S (pyStrip l) = false ∧ isInfixB E (pyStrip l) = false ∧
      isPrefixB "EXIT_CODE:".toList (pyStrip l) = false := by
  simp only [cleanLine, Bool.and_eq_true, Bool.not_eq_true'] at hcl
  exact ⟨hcl.1.1, hcl.1.2, hcl.2⟩

theorem procLine_clean_skip {S E : List Char} {st : DecSt} {l : List Char}
    (hcl : cleanLine S E l = true) (hst : st.started = false) :
    procLine S E st l = (st, false) := by
  obtain ⟨hS, hE, hX⟩ := cleanLine_parts hcl
  simp only [String.toList] at hX
  simp [procLine, hS, hE, hX, hst]

theorem procLinesB_skip {S E : List Char} {st : DecSt} (hst : st.started = false)
    {pre : List (List Char)} (hpre : ∀ l ∈ pre, cleanLine S E l = true)
    (ls : List (List Char)) :
    procLinesB S E st (pre ++ ls) = procLinesB S E st ls := by
  induction pre with
  | nil => rfl
  | cons l pre ih =>
    have hpl := procLine_clean_skip (hpre l (List.mem_cons_self l pre)) hst
    simp only [List.cons_append, procLinesB, hpl]
    exact ih (fun x hx => hpre x (List.mem_cons_of_mem l hx))

theorem procLinesB_collect {S E : List Char} :
    ∀ {mid : List (List Char)} {st : DecSt}, st.started = true → st.ended = false →
      (∀ l ∈ mid, cleanLine S E l = true) → ∀ ls,
      procLinesB S E st (mid ++ ls) =
        procLinesB S E
          { st with stdoutLines :=
              st.stdoutLines ++ (mid.map pyStrip).filter (fun t => !t.isEmpty) } ls := by
  intro mid
  induction mid with
  | nil => intro st h1 h2 _ ls; simp
  | cons l mid ih =>
    intro st h1 h2 hcl ls
    obtain ⟨hS, hE, hX⟩ := cleanLine_parts (hcl l (List.mem_cons_self l mid))
    simp only [String.toList] at hX
    have hrest : ∀ x ∈ mid, cleanLine S E x = true :=
      fun x hx => hcl x (List.mem_cons_of_mem l hx)
    by_cases he : (pyStrip l).isEmpty = true
    · have hpl : procLine S E st l = (st, false) := by
        simp [procLine, hS, hE, hX, he]
      simp only [List.cons_append, procLinesB, hpl, List.append_eq]
      rw [ih h1 h2 hrest ls]
      simp [he]
    · have hpl : procLine S E st l =
          ({ st with stdoutLines := st.stdoutLines ++ [pyStrip l] }, false) := by
        simp [procLine, hS, hE, hX, h1, h2, he]
      simp only [List.cons_append, procLinesB, hpl, List.append_eq]
      rw [@ih { st with stdoutLines := st.stdoutLines ++ [pyStrip l] } h1 h2 hrest ls]
      simp [he]

/-- Claim C1 (corrected): over a framed line stream the decoder discards
everything before the start line, collects between the markers the
stripped and non-empty lines only (the claim's "exactly the lines
received" fails on empty or whitespace-padded lines), parses the
EXIT_CODE line with Python int semantics and leaves the exit code unset
when that parse fails. -/
theorem c1_decoder_amended (S E : List Char)
    (pre : List (List Char)) (sline : List Char) (mid : List (List Char))
    (eline xline : List Char) (rest : List (List Char))
    (hpre : ∀ l ∈ pre, cleanLine S E l = true)
    (hs : isInfixB S (pyStrip sline) = true)
    (hmid : ∀ l ∈ mid, cleanLine S E l = true)
    (heS : isInfixB S (pyStrip eline) = false)
    (heE : isInfixB E (pyStrip eline) = true)
    (hxS : isInfixB S (pyStrip xline) = false)
    (hxE : isInfixB E (pyStrip xline) = false)
    (hxP : isPrefixB "EXIT_CODE:".toList (pyStrip xline) = true) :
    procLinesB S E initDecSt (pre ++ sline :: (mid ++ eline :: xline :: rest)) =
      ⟨true, true, pyParseInt (afterFirstColon (pyStrip xline)),
        (mid.map pyStrip).filter (fun t => !t.isEmpty)⟩ := by
  rw [procLinesB_skip rfl hpre]
  have h1 : procLine S E initDecSt sline = (⟨true, false, none, []⟩, false) := by
    simp [procLine, hs, initDecSt]
  simp only [procLinesB, h1]
  rw [@procLinesB_collect S E mid ⟨true, false, none, []⟩ rfl rfl hmid
    (eline :: xline :: rest)]
  have h2 : procLine S E
      ⟨true, false, none, [] ++ (mid.map pyStrip).filter (fun t => !t.isEmpty)⟩
      eline =
      (⟨true, true, none, (mid.map pyStrip).filter (fun t => !t.isEmpty)⟩, false) := by
    simp [procLine, heS, heE]
  simp only [procLinesB, h2]
  have h3 : procLine S E
      ⟨true, true, none, (mid.map pyStrip).filter (fun t => !t.isEmpty)⟩ xline =
      (⟨true, true, pyParseInt (afterFirstColon (pyStrip xline)),
        (mid.map pyStrip).filter (fun t => !t.isEmpty)⟩, true) := by
    simp only [procLine, hxS, hxE, hxP]
    cases hp : pyParseInt (afterFirstColon (pyStrip xline)) <;> simp [hp]
  simp only [procLinesB, h3]

/-- Witness for C1's amended theorem on a concrete framed stream with a
banner line, an empty line, a padded line and exit code 7. -/
theorem c1_decoder_amended_witness :
    procLinesB "MS".toList "ME".toList initDecSt
        ((["banner"].map String.toList) ++ "MS go".toList ::
          ((["hello", "", "  padded  "].map String.toList) ++
            "ME".toList :: "EXIT_CODE:7".toList :: (["junk"].map String.toList))) =
      ⟨true, true, some 7, ["hello".toList, "padded".toList]⟩ := by
  have T := c1_decoder_amended "MS".toList "ME".toList
    (["banner"].map String.toList) "MS go".toList
    (["hello", "", "  padded  "].map String.toList) "ME".toList
    "EXIT_CODE:7".toList (["junk"].map String.toList)
    (by decide) (by decide) (by decide) (by decide) (by decide) (by decide)
    (by decide) (by decide)
  exact T.trans (by decide)

/-- Counterexample for claim C1 as stated: the decoder's stdout is not
exactly the lines received between the markers; the empty line between
hello and world is dropped. -/
theorem c1_counterexample :
    (procLinesB "MSTART".toList "MEND".toList initDecSt
        (["junk", "MSTART", "hello", "", "world", "MEND", "EXIT_CODE:0"].map
          String.toList)).stdoutLines = ["hello".toList, "world".toList] ∧
    specLinesBetween "MSTART".toList "MEND".toList
        (["junk", "MSTART", "hello", "", "world", "MEND", "EXIT_CODE:0"].map
          String.toList) = ["hello".toList, [], "world".toList] ∧
    (procLinesB "MSTART".toList "MEND".toList initDecSt
        (["junk", "MSTART", "hello", "", "world", "MEND", "EXIT_CODE:0"].map
          String.toList)).stdoutLines ≠
      specLinesBetween "MSTART".toList "MEND".toList
        (["junk", "MSTART", "hello", "", "world", "MEND", "EXIT_CODE:0"].map
          String.toList) := by
  decide

/- ### Claim C6: rewrite-pipeline order -/

/-- Claim C6 (corrected): the server applies the Heredoc Fixer first and
the executor applies the Sudo Rewriter afterwards, the reverse of the
claimed order; the command handed to the marker encoder is the sudo stage
of the heredoc-fixed command. -/
theorem c6_pipeline_amended (cfg : ExecCfg) (env : Env) (req : Request)
    (hAuto : Option Bool) :
    serverSentCommand cfg env req hAuto =
      encodeFull (startMarkerOf env.markerId) (endMarkerOf env.markerId)
        (wdPrefix req.workingDirectory
          (sudoCmdStage cfg req.sudoPassword
            (hfixWith (hAuto.getD true) req.command))) := rfl

/-- Counterexample for claim C6 as stated: on the command
cat, heredoc redirection, a line reading sudo with a trailing blank, and a
terminator without final newline, with a configured password, the sent
text differs from what the claimed sudo-first pipeline would send (the
heredoc fixer's appended newline is swallowed by the sudo substitution in
the claimed order). -/
theorem c6_counterexample :
    serverSentCommand ⟨true, some "pw".toList, 300⟩
        ⟨true, "X".toList, true, [], [], true, true⟩
        ⟨"cat <<E\nsudo \nE".toList, none, none, none⟩ none ≠
      specOrderSentCommand ⟨true, some "pw".toList, 300⟩
        ⟨true, "X".toList, true, [], [], true, true⟩
        ⟨"cat <<E\nsudo \nE".toList, none, none, none⟩ := by
  decide

/- ### Claim C7: exception-free execution -/

theorem executeCommandE_isOk (cfg : ExecCfg) (env : Env) (req : Request) :
    ∃ r, executeCommandE cfg env req = Except.ok r := by
  simp only [executeCommandE]
  split
  · exact ⟨_, rfl⟩
  · split
    · exact ⟨_, rfl⟩
    · exact ⟨_, rfl⟩

/-- Claim C7 (corrected): execute never raises (the Except-level model
always returns ok, matching the catch-all handler); a call on a
disconnected session and a call whose send fails both return status Error
with the exit code unset and the diagnostic in the stderr field, and a
receive failure before the start marker is observed also yields status
Error; but a receive failure after the start marker yields a returned
result whose status is Success (the claim's "status Error for transport
failures" does not hold there). -/
theorem c7_no_raise_amended (cfg : ExecCfg) (env : Env) (req : Request) :
    (∃ r : CommandResult, executeCommandE cfg env req = Except.ok r ∧
      executeCommand cfg env req = r) ∧
    (env.connected = false →
      (executeCommand cfg env req).status = CommandStatus.error ∧
      (executeCommand cfg env req).exitCode = none ∧
      (executeCommand cfg env req).stderr = "SSH接続が確立されていません".toList) ∧
    (env.connected = true → env.sendOk = false →
      (executeCommand cfg env req).status = CommandStatus.error ∧
      (executeCommand cfg env req).exitCode = none ∧
      (executeCommand cfg env req).stderr = env.sendErrMsg) ∧
    (env.connected = true → env.sendOk = true →
      (pollLoop (startMarkerOf env.markerId) (endMarkerOf env.markerId)
        initDecSt env.events).1.started = false →
      (executeCommand cfg env req).status = CommandStatus.error) := by
  refine ⟨?_, ?_, ?_, ?_⟩
  · obtain ⟨r, hr⟩ := executeCommandE_isOk cfg env req
    exact ⟨r, hr, by simp [executeCommand, hr]⟩
  · intro hc
    refine ⟨?_, ?_, ?_⟩ <;> simp [executeCommand, executeCommandE, hc]
  · intro hc hs
    refine ⟨?_, ?_, ?_⟩ <;> simp [executeCommand, executeCommandE, execBody, hc, hs]
  · intro hc hs hst
    simp [executeCommand, executeCommandE, execBody, hc, hs, hst]

/-- Witness for C7's amended theorem: a call on a disconnected session
returns an Error result with the exit code unset. -/
theorem c7_no_raise_amended_witness :
    (executeCommand ⟨true, none, 300⟩ ⟨false, "X".toList, true, [], [], true, true⟩
      ⟨"echo hi".toList, none, none, none⟩).status = CommandStatus.error ∧
    (executeCommand ⟨true, none, 300⟩ ⟨false, "X".toList, true, [], [], true, true⟩
      ⟨"echo hi".toList, none, none, none⟩).exitCode = none := by
  have T := c7_no_raise_amended ⟨true, none, 300⟩
    ⟨false, "X".toList, true, [], [], true, true⟩
    ⟨"echo hi".toList, none, none, none⟩
  exact ⟨(T.2.1 rfl).1, (T.2.1 rfl).2.1⟩

/-- Counterexample for claim C7 as stated: a transport that delivers the
start marker and then fails in recv produces a result whose status is
Success, not Error, with the exit code unset. -/
theorem c7_counterexample :
    (executeCommand ⟨true, none, 300⟩
        ⟨true, "X".toList, true, [],
          [RecvEvent.chunk "SSH_CMD_MARKER_START_X\n".toList, RecvEvent.sshExc],
          true, true⟩
        ⟨"echo hi".toList, none, none, none⟩).status = CommandStatus.success ∧
    (executeCommand ⟨true, none, 300⟩
        ⟨true, "X".toList, true, [],
          [RecvEvent.chunk "SSH_CMD_MARKER_START_X\n".toList, RecvEvent.sshExc],
          true, true⟩
        ⟨"echo hi".toList, none, none, none⟩).exitCode = none := by
  decide

/- ### Claim C5: what the Heredoc Fixer may and may not touch -/

theorem setFirstIndented_append_empty (m : List Char) :
    ∀ A : List (List Char),
      setFirstIndented m (A ++ [[]]) = setFirstIndented m A ++ [[]] := by
  intro A
  induction A with
  | nil =>
    have h0 : isIndentedTerm m [] = false := by
      simp [isIndentedTerm, pyLstrip]
    simp [setFirstIndented, h0]
  | cons l A ih =>
    by_cases h : isIndentedTerm m l = true
    · simp [setFirstIndented, h]
    · simp [setFirstIndented, h, ih]

theorem setFirstIndented_length (m : List Char) :
    ∀ M : List (List Char), (setFirstIndented m M).length = M.length := by
  intro M
  induction M with
  | nil => rfl
  | cons b M ih =>
    by_cases h : isIndentedTerm m b = true <;> simp [setFirstIndented, h, ih]

theorem setFirstIndented_no_newline {m : List Char} :
    ∀ {M : List (List Char)}, (∀ l ∈ M, '\n' ∉ l) →
      ∀ l' ∈ setFirstIndented m M, '\n' ∉ l' := by
  intro M
  induction M with
  | nil => intro _ l' hl'; simp [setFirstIndented] at hl'
  | cons b M ih =>
    intro hM l' hl'
    by_cases h : isIndentedTerm m b = true
    · simp only [setFirstIndented, if_pos h] at hl'
      rcases List.mem_cons.mp hl' with h1 | h1
      · rw [h1]
        have hs : pyStrip b = m := by
          simp only [isIndentedTerm, Bool.and_eq_true, decide_eq_true_eq] at h
          exact h.1
        intro hmem
        exact hM b (List.mem_cons_self b M) (mem_pyStrip (hs ▸ hmem))
      · exact hM l' (List.mem_cons_of_mem b h1)
    · simp only [setFirstIndented, if_neg h] at hl'
      rcases List.mem_cons.mp hl' with h1 | h1
      · rw [h1]; exact hM b (List.mem_cons_self b M)
      · exact ih (fun x hx => hM x (List.mem_cons_of_mem b hx)) l' h1

theorem setFirstIndented_forall₂ {toks : List (List Char)} {m : List Char}
    (hm : m ∈ toks) :
    ∀ {L M : List (List Char)}, List.Forall₂ (lineFixRel toks) L M →
      List.Forall₂ (lineFixRel toks) L (setFirstIndented m M) := by
  intro L M h
  induction h with
  | nil => exact List.Forall₂.nil
  | @cons a b l₁ l₂ hR hF2 ih =>
    by_cases hit : isIndentedTerm m b = true
    · simp only [setFirstIndented, if_pos hit]
      refine List.Forall₂.cons ?_ hF2
      simp only [isIndentedTerm, Bool.and_eq_true, decide_eq_true_eq] at hit
      obtain ⟨hstrip, hne⟩ := hit
      rcases hR with hR | ⟨hmem2, hR⟩
      · have hsa : pyStrip a = m := by rw [hR] at hstrip; exact hstrip
        exact Or.inr ⟨by rw [hsa]; exact hm, hsa.symm⟩
      · exfalso
        have hlb : pyLstrip b = b := by rw [hR, pyLstrip_pyStrip]
        exact hne hlb.symm
    · simp only [setFirstIndented, if_neg hit]
      exact List.Forall₂.cons hR ih

theorem endsNL_of_last_empty {cur : List Char} {core : List (List Char)}
    (hc : core ≠ []) (h : splitLines cur = core ++ [[]]) :
    endsNL cur = true := by
  have hj := joinLines_splitLines cur
  rw [h, joinLines_append_empty hc] at hj
  rw [← hj]
  exact endsNL_append_newline _

theorem issuesOf_marker_mem {cmd : List Char} :
    ∀ iss ∈ issuesOf cmd, iss.itype = IssueType.indented_marker →
      iss.marker ∈ markersOf cmd := by
  intro iss hmem hty
  simp only [issuesOf] at hmem
  rcases List.mem_append.mp hmem with h | h
  · rw [List.mem_flatten] at h
    obtain ⟨li, hli, hiss⟩ := h
    rw [List.mem_map] at hli
    obtain ⟨tok, htok, rfl⟩ := hli
    unfold markerIssues at hiss
    rcases List.mem_append.mp hiss with h2 | h2
    · by_cases hnl : checkNewline cmd tok = true
      · rw [if_pos hnl] at h2; simp at h2
      · rw [if_neg hnl] at h2
        have := List.mem_singleton.mp h2
        rw [this] at hty
        simp at hty
    · cases hfi : findIndented tok (splitLines cmd) with
      | none => rw [hfi] at h2; simp at h2
      | some l =>
        rw [hfi] at h2
        have := List.mem_singleton.mp h2
        rw [this]
        exact htok
  · split at h
    · simp at h
    · unfold generalIssues at h
      rcases List.mem_append.mp h with h3 | h3 <;> split at h3
      · have := List.mem_singleton.mp h3
        rw [this] at hty
        simp at hty
      · simp at h3
      · have := List.mem_singleton.mp h3
        rw [this] at hty
        simp at hty
      · simp at h3

theorem applyIssue_frame {cmd : List Char} {st : List Char × List FixRec}
    {iss : Issue}
    (hm : iss.itype = IssueType.indented_marker → iss.marker ∈ markersOf cmd)
    (hinv : FrameInv cmd st.1) : FrameInv cmd (applyIssue st iss).1 := by
  unfold applyIssue
  by_cases hc : (iss.autoFixable && iss.action = FixAction.auto_applied) = true
  · rw [if_pos hc]
    cases hty : iss.itype with
    | missing_newline =>
      by_cases he : endsNL st.1 = true
      · rw [if_pos he]; exact hinv
      · rw [if_neg he]
        obtain ⟨core, ext, hsplit, hF, hext⟩ := hinv
        rcases hext with hext | hext
        · subst hext
          refine ⟨core, [[]], ?_, hF, Or.inr rfl⟩
          show splitLines (st.1 ++ ['\n']) = core ++ [[]]
          rw [splitLines_append_newline, hsplit]
          simp
        · subst hext
          exfalso
          have hcne : core ≠ [] := by
            have hlen := List.Forall₂.length_eq hF
            intro hh
            rw [hh] at hlen
            simp at hlen
            exact splitLines_ne_nil cmd hlen
          exact he (endsNL_of_last_empty hcne hsplit)
    | indented_marker =>
      by_cases hsf : iss.simpleFix = true
      · rw [if_pos hsf]
        by_cases hfi : (findIndented iss.marker (splitLines st.1)).isSome = true
        · rw [if_pos hfi]
          obtain ⟨core, ext, hsplit, hF, hext⟩ := hinv
          have hmem : iss.marker ∈ markersOf cmd := hm hty
          have hnl : ∀ l' ∈ setFirstIndented iss.marker (splitLines st.1),
              '\n' ∉ l' :=
            setFirstIndented_no_newline (not_mem_splitLines st.1)
          have hne : setFirstIndented iss.marker (splitLines st.1) ≠ [] := by
            have hl := setFirstIndented_length iss.marker (splitLines st.1)
            intro hh
            rw [hh] at hl
            exact splitLines_ne_nil st.1 (List.length_eq_zero.mp hl.symm)
          have hsplit' :
              splitLines (joinLines (setFirstIndented iss.marker (splitLines st.1))) =
                setFirstIndented iss.marker (splitLines st.1) :=
            splitLines_joinLines hnl hne
          rcases hext with hext | hext
          · subst hext
            refine ⟨setFirstIndented iss.marker core, [], ?_,
              setFirstIndented_forall₂ hmem hF, Or.inl rfl⟩
            rw [List.append_nil] at hsplit
            show splitLines (joinLines (setFirstIndented iss.marker (splitLines st.1))) =
              setFirstIndented iss.marker core ++ []
            rw [hsplit', hsplit, List.append_nil]
          · subst hext
            refine ⟨setFirstIndented iss.marker core, [[]], ?_,
              setFirstIndented_forall₂ hmem hF, Or.inr rfl⟩
            show splitLines (joinLines (setFirstIndented iss.marker (splitLines st.1))) =
              setFirstIndented iss.marker core ++ [[]]
            rw [hsplit', hsplit, setFirstIndented_append_empty]
        · rw [if_neg hfi]; exact hinv
      · rw [if_neg hsf]; exact hinv
    | multiple_heredocs => exact hinv
    | sudo_heredoc_combination => exact hinv
  · rw [if_neg hc]; exact hinv

theorem foldl_applyIssue_frame {cmd : List Char} :
    ∀ {issues : List Issue} {st : List Char × List FixRec},
      (∀ iss ∈ issues, iss.itype = IssueType.indented_marker →
        iss.marker ∈ markersOf cmd) →
      FrameInv cmd st.1 → FrameInv cmd (issues.foldl applyIssue st).1 := by
  intro issues
  induction issues with
  | nil => intro st _ h; exact h
  | cons iss issues ih =>
    intro st hms hinv
    rw [List.foldl_cons]
    exact ih (fun x hx => hms x (List.mem_cons_of_mem iss hx))
      (applyIssue_frame (hms iss (List.mem_cons_self iss issues)) hinv)

/-- Claim C5 (corrected): the fixer preserves every line whose stripped
content is not a detected terminator token; each original line is either
kept verbatim or, when it strips to a detected token, replaced by that
stripped token, and the only other change is at most one appended final
newline.  The claim's stronger statement - that the byte range between a
redirection and its terminator is always untouched - fails when one
heredoc's body contains a line that strips to another detected token. -/
theorem c5_frame_amended (cmd : List Char) : FrameInv cmd (hfix cmd) := by
  have hinit : FrameInv cmd cmd :=
    ⟨splitLines cmd, [], by simp,
      List.forall₂_same.mpr (fun x _ => Or.inl rfl), Or.inl rfl⟩
  unfold hfix hfixWith
  by_cases hm : (!(markersOf cmd).isEmpty && true) = true
  · rw [if_pos hm]
    exact foldl_applyIssue_frame issuesOf_marker_mem hinit
  · rw [if_neg hm]; exact hinit

/-- Counterexample for claim C5 as stated: in the two-heredoc command the
line reading B with two leading blanks lies strictly between the first
redirection and the first heredoc's terminator line, yet the fixer
rewrites it (mistaking it for the second token's indented terminator), so
the body of the first heredoc changes. -/
theorem c5_counterexample :
    "A".toList ∈ markersOf "cat <<A\n  B\nA\ncat <<B\nx\nB".toList ∧
    specHeredocBody "cat <<A\n  B\nA\ncat <<B\nx\nB".toList "A".toList =
      ["  B".toList] ∧
    specHeredocBody (hfix "cat <<A\n  B\nA\ncat <<B\nx\nB".toList) "A".toList =
      ["B".toList] ∧
    specHeredocBody "cat <<A\n  B\nA\ncat <<B\nx\nB".toList "A".toList ≠
      specHeredocBody (hfix "cat <<A\n  B\nA\ncat <<B\nx\nB".toList) "A".toList := by
  decide

end SshExec
